import Mathlib

/-!
Shallow embedding of the AI-Thought-Evolution-Engine repository
(`src/ai_engine.py` and `src/ai_engine.working.py`).

Randomness (`random.sample`, `random.choice`, `random.uniform`, `uuid.uuid4`)
is modelled by explicit oracle parameters: a `CycleDraws` record carries the
random indices drawn in one call of `run_debate_cycle`, `uuid`/`unif`
oracles feed agent construction, and the sentence-transformer composition
`encode`/`pytorch_cos_sim` is an opaque function `sim : String → String → ℚ`.
Python floats are modelled as rationals; the scripts only add/subtract 0.1
and clamp, so the control flow is faithfully represented.
-/

namespace AIEngine

/-- The fixed 8-role list passed to `ThoughtAgent` construction in
`DebateEngine.__init__` (identical in both variants). -/
def roles : List String :=
  ["Rationalist", "Chaotic", "Utopian", "Dystopian",
   "Empiricist", "Surrealist", "Nihilist", "Transhumanist"]

/-- The fixed 7-topic list sampled by `random.choice` in `run_debate_cycle`. -/
def topics : List String :=
  ["consciousness", "free will", "AI ethics", "existential risk",
   "simulation theory", "post-humanism", "meaning of life"]

/-- Stance adjectives for `argument1` (`random.choice(['fundamental', 'illusory', 'dangerous'])`). -/
def stances1 : List String := ["fundamental", "illusory", "dangerous"]

/-- Stance adjectives for `argument2` (`random.choice(['emerging', 'irrelevant', 'divine'])`). -/
def stances2 : List String := ["emerging", "irrelevant", "divine"]

/-- `ThoughtAgent.__init__`: id from `uuid.uuid4()`, the given role, empty
beliefs, adaptability from `random.uniform(0.3, 0.9)`. -/
structure ThoughtAgent where
  id : String
  role : String
  beliefs : List String
  adaptability : ℚ
  deriving DecidableEq

/-- Placeholder agent used as the default of out-of-range list reads; real
executions never read it (sampling indices are in range). -/
def defaultAgent : ThoughtAgent := ⟨"", "", [], 0⟩

/-- A weighted edge of the `networkx` graph: the two node strings and the
`weight` attribute. -/
abbrev Edge : Type := String × String × ℚ

/-- `DebateEngine` mutable state: `self.agents`, `self.knowledge_graph`
(edge list with overwrite-on-reinsertion semantics, mirroring
`nx.Graph.add_edge`), `self.debate_history`. -/
structure DebateEngine where
  agents : List ThoughtAgent
  knowledge_graph : List Edge
  debate_history : List (String × String)

/-- The random draws consumed by one `run_debate_cycle` call: the two
sampled agent indices (`random.sample(self.agents, 2)`), the topic index
and the two stance indices (`random.choice`). -/
structure CycleDraws where
  i1 : Nat
  i2 : Nat
  topic : Nat
  s1 : Nat
  s2 : Nat

/-- Validity of one cycle's draws with respect to a pool of `n` agents:
`random.sample` returns two distinct in-range indices, `random.choice`
returns in-range indices. -/
def CycleDraws.Valid (d : CycleDraws) (n : Nat) : Prop :=
  d.i1 < n ∧ d.i2 < n ∧ d.i1 ≠ d.i2 ∧
  d.topic < topics.length ∧ d.s1 < stances1.length ∧ d.s2 < stances2.length

instance (d : CycleDraws) (n : Nat) : Decidable (d.Valid n) := by
  unfold CycleDraws.Valid; infer_instance

/-- `argument1` template: `f"{a1.role} argues: {topic} is {stance}"`, with a
trailing period iff the `ai_engine.working.py` variant (`p = true`). -/
def mkArg1 (p : Bool) (role topic stance : String) : String :=
  role ++ " argues: " ++ topic ++ " is " ++ stance ++ (if p then "." else "")

/-- `argument2` template: `f"{a2.role} counters: {topic} is {stance}"`, with a
trailing period iff the `ai_engine.working.py` variant (`p = true`). -/
def mkArg2 (p : Bool) (role topic stance : String) : String :=
  role ++ " counters: " ++ topic ++ " is " ++ stance ++ (if p then "." else "")

/-- The `argument1` string synthesized by `run_debate_cycle` from state `e`
under draws `d`. -/
def cycleArg1 (p : Bool) (d : CycleDraws) (e : DebateEngine) : String :=
  mkArg1 p (e.agents.getD d.i1 defaultAgent).role
    (topics.getD d.topic "") (stances1.getD d.s1 "")

/-- The `argument2` string synthesized by `run_debate_cycle` from state `e`
under draws `d`. -/
def cycleArg2 (p : Bool) (d : CycleDraws) (e : DebateEngine) : String :=
  mkArg2 p (e.agents.getD d.i2 defaultAgent).role
    (topics.getD d.topic "") (stances2.getD d.s2 "")

/-- Whether a stored edge connects the (unordered) node pair `{a, b}`. -/
def edgeMatches (a b : String) (ed : Edge) : Bool :=
  (ed.1 == a && ed.2.1 == b) || (ed.1 == b && ed.2.1 == a)

/-- `nx.Graph.add_edge(a, b, weight := w)`: if an edge between the two nodes
exists its weight attribute is overwritten, otherwise a new edge is appended. -/
def addEdge (g : List Edge) (a b : String) (w : ℚ) : List Edge :=
  if g.any (edgeMatches a b) then
    g.map (fun ed => if edgeMatches a b ed then (ed.1, ed.2.1, w) else ed)
  else
    g ++ [(a, b, w)]

/-- The shared body of `run_debate_cycle` (lines 51-75 of `ai_engine.py`,
lines 51-77 of `ai_engine.working.py`; the two variants differ only in the
trailing period of the argument templates, selected by `p`). `sim` is the
composition of `self.model.encode` on both arguments with
`util.pytorch_cos_sim(...).item()`. -/
def runDebateCycleBody (p : Bool) (sim : String → String → ℚ)
    (d : CycleDraws) (e : DebateEngine) : DebateEngine :=
  let a1 := e.agents.getD d.i1 defaultAgent
  let a2 := e.agents.getD d.i2 defaultAgent
  let arg1 := cycleArg1 p d e
  let arg2 := cycleArg2 p d e
  let similarity := sim arg1 arg2
  let g := addEdge e.knowledge_graph arg1 arg2 similarity
  let agents :=
    if similarity > 0.7 then
      e.agents.set d.i1
        { a1 with beliefs := a1.beliefs ++ [arg2],
                  adaptability := min 1 (a1.adaptability + 0.1) }
    else
      e.agents.set d.i2
        { a2 with beliefs := a2.beliefs ++ [arg1],
                  adaptability := max 0.1 (a2.adaptability - 0.1) }
  { agents := agents, knowledge_graph := g,
    debate_history := e.debate_history ++ [(arg1, arg2)] }

/-- `DebateEngine.run_debate_cycle` of `ai_engine.py`: no guard, so
`random.sample(self.agents, 2)` raises `ValueError` when the pool holds
fewer than 2 agents; modelled as `Except`. -/
def DebateEngine.run_debate_cycle (sim : String → String → ℚ)
    (d : CycleDraws) (e : DebateEngine) : Except String DebateEngine :=
  if e.agents.length < 2 then
    Except.error "ValueError: sample larger than population"
  else
    Except.ok (runDebateCycleBody false sim d e)

/-- `DebateEngine.run_debate_cycle` of `ai_engine.working.py`: the
`if len(self.agents) < 2: return` guard makes the call a silent no-op. -/
def DebateEngine.run_debate_cycle_working (sim : String → String → ℚ)
    (d : CycleDraws) (e : DebateEngine) : DebateEngine :=
  if e.agents.length < 2 then e
  else runDebateCycleBody true sim d e

/-- `DebateEngine.__init__`: one `ThoughtAgent(role)` per role of the fixed
list, in order; `uuid i` and `unif i` are the oracle results of the
`uuid.uuid4()` / `random.uniform(0.3, 0.9)` calls made by the `i`-th
constructor call; empty graph and history. -/
def DebateEngine.init (uuid : Nat → String) (unif : Nat → ℚ) : DebateEngine :=
  { agents :=
      (roles.zip (List.range roles.length)).map
        (fun x => ⟨uuid x.2, x.1, [], unif x.2⟩),
    knowledge_graph := [],
    debate_history := [] }

/-- A run of `n = ds.length` consecutive debate cycles, one `CycleDraws`
record per cycle. The `< 2` guard mirrors `ai_engine.working.py`; from the
8-agent initial state it never fires (the pool length is invariant), so the
same function also describes the `ai_engine.py` driver loop when `p = false`. -/
def runCycles (p : Bool) (sim : String → String → ℚ)
    (ds : List CycleDraws) (e : DebateEngine) : DebateEngine :=
  ds.foldl
    (fun acc d =>
      if acc.agents.length < 2 then acc else runDebateCycleBody p sim d acc)
    e

/-- The adaptability invariant of §8 of the spec: every pooled agent's
adaptability lies in the closed interval [0.1, 1]. -/
def AdaptInv (e : DebateEngine) : Prop :=
  ∀ a ∈ e.agents, (0.1 : ℚ) ≤ a.adaptability ∧ a.adaptability ≤ 1

/-- Split a list into the (possibly empty) runs lying between occurrences
of the separator `c`; used to cut the history file into lines and the line
list into blank-line-separated blocks. -/
def splitOnElem {α : Type} [DecidableEq α] (c : α) : List α → List (List α)
  | [] => [[]]
  | x :: xs =>
    match splitOnElem c xs with
    | [] => [[x]]
    | g :: gs => if x = c then [] :: g :: gs else (x :: g) :: gs

/-- The history dump loop (`f.write(f"{entry[0]}\n{entry[1]}\n\n")` per
entry, in order): the full text written to `debate_history.txt`. -/
def serializeHistory : List (String × String) → String
  | [] => ""
  | e :: t => e.1 ++ "\n" ++ e.2 ++ "\n\n" ++ serializeHistory t

/-- Modelled from the spec: the repository has no parser for
`debate_history.txt`; §8 describes reading it back as blocks of two
non-blank lines separated by blank lines, one `(argument1, argument2)` pair
per block. Blank lines delimit blocks; a block not consisting of exactly
two lines is a parse failure. -/
def parseHistory (s : String) : Option (List (String × String)) :=
  ((splitOnElem ([] : List Char) (splitOnElem '\n' s.data)).filter
    (fun b => b ≠ [])).mapM
    (fun b =>
      match b with
      | [x, y] => some (String.mk x, String.mk y)
      | _ => none)

/-- `s` contains no newline character. -/
def noNewline (s : String) : Bool :=
  s.data.all (fun c => c != '\n')

/-- Well-formed history: every recorded string is non-blank and
newline-free — true of every history the engine produces and exactly what
the two-lines-per-block file format needs to be invertible. -/
def WfHistory (h : List (String × String)) : Prop :=
  ∀ pr ∈ h, pr.1.data ≠ [] ∧ pr.2.data ≠ [] ∧
    noNewline pr.1 = true ∧ noNewline pr.2 = true

/-- Every pooled agent's role label is newline-free. -/
def RolesNoNewline (e : DebateEngine) : Prop :=
  ∀ a ∈ e.agents, noNewline a.role = true

/-- The characters of `s` strictly before its first colon. -/
def beforeColon (s : String) : List Char :=
  s.data.takeWhile (fun c => c != ':')

/-- `s` contains no colon character. -/
def noColon (s : String) : Bool :=
  s.data.all (fun c => c != ':')

/-- Every pooled agent's role label is colon-free (true of the fixed 8-role
list and preserved by cycles, which never rewrite roles). -/
def RolesNoColon (e : DebateEngine) : Prop :=
  ∀ a ∈ e.agents, noColon a.role = true

/-- No debate-history pair and no knowledge-graph edge joins two identical
strings. -/
def DistinctState (e : DebateEngine) : Prop :=
  (∀ pr ∈ e.debate_history, pr.1 ≠ pr.2) ∧
  (∀ ed ∈ e.knowledge_graph, ed.1 ≠ ed.2.1)

/-! ### Concrete fixtures used to instantiate theorems on executable inputs -/

/-- A concrete stand-in for the `uuid.uuid4()` oracle: decimal numerals,
pairwise distinct. -/
def testUuid : Nat → String := fun i => Nat.repr i

/-- A concrete stand-in for `random.uniform(0.3, 0.9)`: the constant 1/2. -/
def testUnif : Nat → ℚ := fun _ => 1/2

/-- A concrete stand-in for `random.uniform(0.3, 0.9)`: the constant 9/10,
the upper end of the sampling interval. -/
def highUnif : Nat → ℚ := fun _ => 9/10

/-- A stubbed similarity oracle returning the constant 0.75. -/
def sim075 : String → String → ℚ := fun _ _ => 0.75

/-- A stubbed similarity oracle returning the constant 0.5. -/
def sim05 : String → String → ℚ := fun _ _ => 0.5

/-- Concrete draws: agents 0 and 1, first topic, first stances. -/
def draws0 : CycleDraws := ⟨0, 1, 0, 0, 0⟩

/-- A pool with the same roles as the fresh pool but different ids, belief
sequences and adaptability values; used to exhibit noninterference. -/
def alteredEngine : DebateEngine :=
  { agents :=
      [⟨"x0", "Rationalist", ["b1", "b2"], 1⟩, ⟨"x1", "Chaotic", ["b3"], 1/4⟩,
       ⟨"x2", "Utopian", ["b4"], 1⟩, ⟨"x3", "Dystopian", [], 1/10⟩,
       ⟨"x4", "Empiricist", ["b5", "b6"], 1/3⟩, ⟨"x5", "Surrealist", [], 1⟩,
       ⟨"x6", "Nihilist", ["b7"], 1/5⟩, ⟨"x7", "Transhumanist", [], 1/2⟩],
    knowledge_graph := [("n1", "n2", 1/2)],
    debate_history := [("n1", "n2")] }

/-- A one-agent pool, used to exercise the `len(self.agents) < 2` path. -/
def oneAgentEngine : DebateEngine :=
  { agents := [⟨"a", "Rationalist", [], 1/2⟩],
    knowledge_graph := [], debate_history := [] }

/-! ### Helper lemmas about list indexing and the engine state -/

theorem getD_set_self {α : Type} (l : List α) (i : Nat) (v d : α)
    (h : i < l.length) : (l.set i v).getD i d = v := by
  simp [List.getD_eq_getElem?_getD, List.getElem?_set_self, h]

theorem getD_set_ne {α : Type} (l : List α) {i j : Nat} (v d : α)
    (h : i ≠ j) : (l.set i v).getD j d = l.getD j d := by
  simp [List.getD_eq_getElem?_getD, List.getElem?_set_ne h]

theorem getD_mem {α : Type} {l : List α} {i : Nat} (d : α)
    (h : i < l.length) : l.getD i d ∈ l := by
  simp [List.getD_eq_getElem?_getD, List.getElem?_eq_getElem h]

/-- `DebateEngine.init` written out: the agent pool is the explicit
8-element list of fresh agents, one per fixed role, in order. -/
theorem init_agents_eq (uuid : Nat → String) (unif : Nat → ℚ) :
    (DebateEngine.init uuid unif).agents =
      [⟨uuid 0, "Rationalist", [], unif 0⟩, ⟨uuid 1, "Chaotic", [], unif 1⟩,
       ⟨uuid 2, "Utopian", [], unif 2⟩, ⟨uuid 3, "Dystopian", [], unif 3⟩,
       ⟨uuid 4, "Empiricist", [], unif 4⟩, ⟨uuid 5, "Surrealist", [], unif 5⟩,
       ⟨uuid 6, "Nihilist", [], unif 6⟩,
       ⟨uuid 7, "Transhumanist", [], unif 7⟩] := rfl

/-- Every agent of the initial pool carries a role from the fixed list. -/
theorem init_role_mem (uuid : Nat → String) (unif : Nat → ℚ)
    {a : ThoughtAgent} (h : a ∈ (DebateEngine.init uuid unif).agents) :
    a.role ∈ roles := by
  rw [init_agents_eq] at h
  simp only [List.mem_cons, List.not_mem_nil, or_false] at h
  rcases h with h | h | h | h | h | h | h | h <;> subst h <;> simp [roles]

/-! ### C5: behaviour on a pool with fewer than 2 agents -/

/-- C5: with fewer than 2 agents in the pool, the `ai_engine.working.py`
variant of `run_debate_cycle` is a silent no-op returning the state
unchanged (agents, knowledge graph and debate history untouched), while the
`ai_engine.py` variant raises an uncaught sampling error (`random.sample`
`ValueError`), modelled as `Except.error`. -/
theorem run_debate_cycle_underfull (sim : String → String → ℚ)
    (d : CycleDraws) (e : DebateEngine) (h : e.agents.length < 2) :
    DebateEngine.run_debate_cycle_working sim d e = e ∧
    DebateEngine.run_debate_cycle sim d e =
      Except.error "ValueError: sample larger than population" := by
  constructor
  · unfold DebateEngine.run_debate_cycle_working
    rw [if_pos h]
  · unfold DebateEngine.run_debate_cycle
    rw [if_pos h]

/-- Witness for C5 at the concrete one-agent pool `oneAgentEngine`. -/
theorem run_debate_cycle_underfull_witness :
    oneAgentEngine.agents.length < 2 ∧
    (DebateEngine.run_debate_cycle_working sim075 draws0 oneAgentEngine =
        oneAgentEngine ∧
      DebateEngine.run_debate_cycle sim075 draws0 oneAgentEngine =
        Except.error "ValueError: sample larger than population") :=
  ⟨by decide, run_debate_cycle_underfull sim075 draws0 oneAgentEngine (by decide)⟩

/-! ### C6: agent pool initialization -/

/-- C6: `DebateEngine.__init__` produces exactly 8 agents, one per role of
the fixed 8-role list in order, each with the freshly drawn identifier, an
empty belief sequence and the freshly drawn adaptability; when the
identifier draws are pairwise distinct the agent ids are pairwise distinct,
and when the uniform draws land in [0.3, 0.9] (the `random.uniform(0.3, 0.9)`
contract) every adaptability lies in [0.3, 0.9]. The constructor is total:
no error conditions. -/
theorem init_spec (uuid : Nat → String) (unif : Nat → ℚ)
    (hu : ∀ i < 8, ∀ j < 8, i ≠ j → uuid i ≠ uuid j)
    (hr : ∀ i, (0.3 : ℚ) ≤ unif i ∧ unif i ≤ 0.9) :
    (DebateEngine.init uuid unif).agents.length = 8 ∧
    (DebateEngine.init uuid unif).agents.map ThoughtAgent.role = roles ∧
    (∀ i, (DebateEngine.init uuid unif).agents.getD i defaultAgent =
      if i < 8 then ⟨uuid i, roles.getD i "", [], unif i⟩ else defaultAgent) ∧
    (∀ a ∈ (DebateEngine.init uuid unif).agents,
      a.beliefs = [] ∧ (0.3 : ℚ) ≤ a.adaptability ∧ a.adaptability ≤ 0.9) ∧
    List.Pairwise (fun a b => a.id ≠ b.id)
      (DebateEngine.init uuid unif).agents := by
  refine ⟨rfl, rfl, ?_, ?_, ?_⟩
  · intro i
    rw [init_agents_eq]
    match i with
    | 0 | 1 | 2 | 3 | 4 | 5 | 6 | 7 => simp [roles]
    | n + 8 => simp [List.getD]
  · intro a ha
    rw [init_agents_eq] at ha
    simp only [List.mem_cons, List.not_mem_nil, or_false] at ha
    rcases ha with h | h | h | h | h | h | h | h <;> subst h <;>
      exact ⟨rfl, hr _⟩
  · have h8 : List.Pairwise (fun i j => uuid i ≠ uuid j) (List.range 8) := by
      refine List.Pairwise.imp_of_mem ?_ (List.pairwise_lt_range 8)
      intro a b ha hb hlt
      exact hu a (List.mem_range.mp ha) b (List.mem_range.mp hb)
        (Nat.ne_of_lt hlt)
    show List.Pairwise _ ((List.range 8).map fun i =>
      (⟨uuid i, roles.getD i "", [], unif i⟩ : ThoughtAgent))
    rw [List.pairwise_map]
    exact h8

/-- Witness for C6: the initialization contract evaluated at concrete
oracles (decimal-numeral ids, constant adaptability draw 1/2). -/
theorem init_spec_witness :
    (DebateEngine.init testUuid testUnif).agents.length = 8 ∧
    (DebateEngine.init testUuid testUnif).agents.map ThoughtAgent.role =
      roles ∧
    List.Pairwise (fun a b => a.id ≠ b.id)
      (DebateEngine.init testUuid testUnif).agents := by
  have h := init_spec testUuid testUnif (by decide)
    (fun i => by constructor <;> norm_num [testUnif])
  exact ⟨h.1, h.2.1, h.2.2.2.2⟩

/-! ### C1: the evolution rule's two branches -/

/-- C1: in a completed `run_debate_cycle`, if the computed similarity is
strictly greater than 0.7 then agent1 gains agent2's argument and its
adaptability becomes `min 1 (old + 0.1)` while agent2 is untouched;
otherwise (similarity ≤ 0.7, equality included) agent2 gains agent1's
argument and its adaptability becomes `max 0.1 (old - 0.1)` while agent1 is
untouched. In particular a similarity stubbed to the constant 0.75 always
takes the adopt-and-increase branch and a constant 0.5 always takes the
decrease branch. -/
theorem run_debate_cycle_branches (p : Bool) (sim : String → String → ℚ)
    (d : CycleDraws) (e : DebateEngine)
    (h1 : d.i1 < e.agents.length) (h2 : d.i2 < e.agents.length)
    (hne : d.i1 ≠ d.i2) :
    (sim (cycleArg1 p d e) (cycleArg2 p d e) > 0.7 →
      (runDebateCycleBody p sim d e).agents.getD d.i1 defaultAgent =
        { e.agents.getD d.i1 defaultAgent with
            beliefs := (e.agents.getD d.i1 defaultAgent).beliefs ++
              [cycleArg2 p d e],
            adaptability :=
              min 1 ((e.agents.getD d.i1 defaultAgent).adaptability + 0.1) } ∧
      (runDebateCycleBody p sim d e).agents.getD d.i2 defaultAgent =
        e.agents.getD d.i2 defaultAgent) ∧
    (sim (cycleArg1 p d e) (cycleArg2 p d e) ≤ 0.7 →
      (runDebateCycleBody p sim d e).agents.getD d.i2 defaultAgent =
        { e.agents.getD d.i2 defaultAgent with
            beliefs := (e.agents.getD d.i2 defaultAgent).beliefs ++
              [cycleArg1 p d e],
            adaptability :=
              max 0.1 ((e.agents.getD d.i2 defaultAgent).adaptability - 0.1) } ∧
      (runDebateCycleBody p sim d e).agents.getD d.i1 defaultAgent =
        e.agents.getD d.i1 defaultAgent) ∧
    ((runDebateCycleBody p sim075 d e).agents.getD d.i1 defaultAgent).beliefs =
      (e.agents.getD d.i1 defaultAgent).beliefs ++ [cycleArg2 p d e] ∧
    ((runDebateCycleBody p sim05 d e).agents.getD d.i2 defaultAgent).beliefs =
      (e.agents.getD d.i2 defaultAgent).beliefs ++ [cycleArg1 p d e] := by
  have main : ∀ s : String → String → ℚ,
      (s (cycleArg1 p d e) (cycleArg2 p d e) > 0.7 →
        (runDebateCycleBody p s d e).agents.getD d.i1 defaultAgent =
          { e.agents.getD d.i1 defaultAgent with
              beliefs := (e.agents.getD d.i1 defaultAgent).beliefs ++
                [cycleArg2 p d e],
              adaptability :=
                min 1 ((e.agents.getD d.i1 defaultAgent).adaptability + 0.1) } ∧
        (runDebateCycleBody p s d e).agents.getD d.i2 defaultAgent =
          e.agents.getD d.i2 defaultAgent) ∧
      (s (cycleArg1 p d e) (cycleArg2 p d e) ≤ 0.7 →
        (runDebateCycleBody p s d e).agents.getD d.i2 defaultAgent =
          { e.agents.getD d.i2 defaultAgent with
              beliefs := (e.agents.getD d.i2 defaultAgent).beliefs ++
                [cycleArg1 p d e],
              adaptability :=
                max 0.1 ((e.agents.getD d.i2 defaultAgent).adaptability - 0.1) } ∧
        (runDebateCycleBody p s d e).agents.getD d.i1 defaultAgent =
          e.agents.getD d.i1 defaultAgent) := by
    intro s
    constructor
    · intro h
      simp only [runDebateCycleBody, if_pos h]
      exact ⟨getD_set_self _ _ _ _ h1, getD_set_ne _ _ _ hne⟩
    · intro h
      simp only [runDebateCycleBody, if_neg (not_lt.mpr h)]
      exact ⟨getD_set_self _ _ _ _ h2, getD_set_ne _ _ _ (Ne.symm hne)⟩
  refine ⟨(main sim).1, (main sim).2, ?_, ?_⟩
  · exact congrArg ThoughtAgent.beliefs (((main sim075).1 (by norm_num [sim075])).1)
  · exact congrArg ThoughtAgent.beliefs (((main sim05).2 (by norm_num [sim05])).1)

/-- Witness for C1: on the fresh 8-agent pool with draws (0, 1) and the
constant-0.75 similarity stub, agent 0 adopts agent 1's counter-argument. -/
theorem run_debate_cycle_branches_witness :
    draws0.i1 < (DebateEngine.init testUuid testUnif).agents.length ∧
    draws0.i2 < (DebateEngine.init testUuid testUnif).agents.length ∧
    draws0.i1 ≠ draws0.i2 ∧
    ((runDebateCycleBody false sim075 draws0
        (DebateEngine.init testUuid testUnif)).agents.getD draws0.i1
        defaultAgent).beliefs =
      ((DebateEngine.init testUuid testUnif).agents.getD draws0.i1
        defaultAgent).beliefs ++
        [cycleArg2 false draws0 (DebateEngine.init testUuid testUnif)] :=
  ⟨by decide, by decide, by decide,
    (run_debate_cycle_branches false sim075 draws0
      (DebateEngine.init testUuid testUnif)
      (by decide) (by decide) (by decide)).2.2.1⟩

/-! ### C2: per-cycle mutation footprint -/

/-- Counterexample to C2 as stated: start from the fresh pool with every
uniform draw at 0.9 and run one cycle with the constant-0.75 similarity
stub; agent 0's adaptability clamps to 1. In the next completed cycle
(same draws, same stub) *neither* sampled agent's adaptability value
changes — `min 1 (1 + 0.1) = 1` — even though agent 0's belief sequence
still grows, so "exactly one sampled agent has its adaptability value
change" fails. -/
theorem run_debate_cycle_frame_cex :
    ((runDebateCycleBody false sim075 draws0
        (runCycles false sim075 [draws0]
          (DebateEngine.init testUuid highUnif))).agents.getD 0
        defaultAgent).adaptability =
      (((runCycles false sim075 [draws0]
          (DebateEngine.init testUuid highUnif))).agents.getD 0
        defaultAgent).adaptability ∧
    ((runDebateCycleBody false sim075 draws0
        (runCycles false sim075 [draws0]
          (DebateEngine.init testUuid highUnif))).agents.getD 1
        defaultAgent).adaptability =
      (((runCycles false sim075 [draws0]
          (DebateEngine.init testUuid highUnif))).agents.getD 1
        defaultAgent).adaptability ∧
    ((runDebateCycleBody false sim075 draws0
        (runCycles false sim075 [draws0]
          (DebateEngine.init testUuid highUnif))).agents.getD 0
        defaultAgent).beliefs ≠
      (((runCycles false sim075 [draws0]
          (DebateEngine.init testUuid highUnif))).agents.getD 0
        defaultAgent).beliefs := by
  norm_num [runCycles, runDebateCycleBody, draws0, sim075, highUnif,
    DebateEngine.init, roles, cycleArg1, cycleArg2, mkArg1, mkArg2, topics,
    stances1, stances2, addEdge, testUuid, defaultAgent]

/-- C2 as amended: in every completed cycle exactly one sampled agent is
mutated — its belief sequence grows by exactly one entry and its
adaptability is reassigned the clamped value (which coincides with the old
value when the clamp already binds) — while the other sampled agent is
returned identical and every agent not sampled in the cycle is entirely
unchanged; the pool size is preserved. -/
theorem run_debate_cycle_frame (p : Bool) (sim : String → String → ℚ)
    (d : CycleDraws) (e : DebateEngine)
    (h1 : d.i1 < e.agents.length) (h2 : d.i2 < e.agents.length)
    (hne : d.i1 ≠ d.i2) :
    (∀ k, k ≠ d.i1 → k ≠ d.i2 →
      (runDebateCycleBody p sim d e).agents.getD k defaultAgent =
        e.agents.getD k defaultAgent) ∧
    (runDebateCycleBody p sim d e).agents.length = e.agents.length ∧
    (sim (cycleArg1 p d e) (cycleArg2 p d e) > 0.7 →
      (runDebateCycleBody p sim d e).agents.getD d.i2 defaultAgent =
        e.agents.getD d.i2 defaultAgent ∧
      ((runDebateCycleBody p sim d e).agents.getD d.i1 defaultAgent).beliefs
        = (e.agents.getD d.i1 defaultAgent).beliefs ++ [cycleArg2 p d e] ∧
      ((runDebateCycleBody p sim d e).agents.getD d.i1 defaultAgent).id =
        (e.agents.getD d.i1 defaultAgent).id ∧
      ((runDebateCycleBody p sim d e).agents.getD d.i1 defaultAgent).role =
        (e.agents.getD d.i1 defaultAgent).role ∧
      ((runDebateCycleBody p sim d e).agents.getD d.i1
          defaultAgent).adaptability =
        min 1 ((e.agents.getD d.i1 defaultAgent).adaptability + 0.1)) ∧
    (sim (cycleArg1 p d e) (cycleArg2 p d e) ≤ 0.7 →
      (runDebateCycleBody p sim d e).agents.getD d.i1 defaultAgent =
        e.agents.getD d.i1 defaultAgent ∧
      ((runDebateCycleBody p sim d e).agents.getD d.i2 defaultAgent).beliefs
        = (e.agents.getD d.i2 defaultAgent).beliefs ++ [cycleArg1 p d e] ∧
      ((runDebateCycleBody p sim d e).agents.getD d.i2 defaultAgent).id =
        (e.agents.getD d.i2 defaultAgent).id ∧
      ((runDebateCycleBody p sim d e).agents.getD d.i2 defaultAgent).role =
        (e.agents.getD d.i2 defaultAgent).role ∧
      ((runDebateCycleBody p sim d e).agents.getD d.i2
          defaultAgent).adaptability =
        max 0.1 ((e.agents.getD d.i2 defaultAgent).adaptability - 0.1)) := by
  refine ⟨?_, ?_, ?_, ?_⟩
  · intro k hk1 hk2
    by_cases h : sim (cycleArg1 p d e) (cycleArg2 p d e) > 0.7
    · simp only [runDebateCycleBody, if_pos h]
      exact getD_set_ne _ _ _ (Ne.symm hk1)
    · simp only [runDebateCycleBody, if_neg h]
      exact getD_set_ne _ _ _ (Ne.symm hk2)
  · by_cases h : sim (cycleArg1 p d e) (cycleArg2 p d e) > 0.7 <;>
      simp only [runDebateCycleBody, if_pos, if_neg, h, if_true, if_false,
        List.length_set]
  · intro h
    simp only [runDebateCycleBody, if_pos h]
    rw [getD_set_self _ _ _ _ h1, getD_set_ne _ _ _ hne]
    exact ⟨rfl, rfl, rfl, rfl, rfl⟩
  · intro h
    simp only [runDebateCycleBody, if_neg (not_lt.mpr h)]
    rw [getD_set_self _ _ _ _ h2, getD_set_ne _ _ _ (Ne.symm hne)]
    exact ⟨rfl, rfl, rfl, rfl, rfl⟩

/-- Witness for C2 (amended): concrete cycle on the fresh pool, checking
the frame at the unsampled index 2 and pool-size preservation. -/
theorem run_debate_cycle_frame_witness :
    draws0.i1 < (DebateEngine.init testUuid testUnif).agents.length ∧
    draws0.i2 < (DebateEngine.init testUuid testUnif).agents.length ∧
    draws0.i1 ≠ draws0.i2 ∧
    (runDebateCycleBody false sim075 draws0
        (DebateEngine.init testUuid testUnif)).agents.getD 2 defaultAgent =
      (DebateEngine.init testUuid testUnif).agents.getD 2 defaultAgent ∧
    (runDebateCycleBody false sim075 draws0
        (DebateEngine.init testUuid testUnif)).agents.length =
      (DebateEngine.init testUuid testUnif).agents.length :=
  ⟨by decide, by decide, by decide,
    (run_debate_cycle_frame false sim075 draws0
      (DebateEngine.init testUuid testUnif)
      (by decide) (by decide) (by decide)).1 2 (by decide) (by decide),
    (run_debate_cycle_frame false sim075 draws0
      (DebateEngine.init testUuid testUnif)
      (by decide) (by decide) (by decide)).2.1⟩

/-! ### C3: the adaptability invariant -/

/-- One debate cycle preserves the adaptability invariant: the only
reassignment is `min 1 (x + 0.1)` or `max 0.1 (x - 0.1)` applied to a value
that is either a pooled agent's (hence in range) or the placeholder's 0. -/
theorem adaptInv_body (p : Bool) (sim : String → String → ℚ)
    (d : CycleDraws) (e : DebateEngine) (h : AdaptInv e) :
    AdaptInv (runDebateCycleBody p sim d e) := by
  have hget : ∀ i : Nat, (0 : ℚ) ≤ (e.agents.getD i defaultAgent).adaptability ∧
      (e.agents.getD i defaultAgent).adaptability ≤ 1 := by
    intro i
    by_cases hi : i < e.agents.length
    · have hb := h _ (getD_mem defaultAgent hi)
      exact ⟨le_trans (by norm_num) hb.1, hb.2⟩
    · rw [List.getD_eq_default _ _ (Nat.le_of_not_lt hi)]
      norm_num [defaultAgent]
  intro a ha
  simp only [runDebateCycleBody] at ha
  by_cases hb : sim (cycleArg1 p d e) (cycleArg2 p d e) > 0.7
  · rw [if_pos hb] at ha
    rcases List.mem_or_eq_of_mem_set ha with h' | h'
    · exact h a h'
    · subst h'
      refine ⟨le_min (by norm_num) ?_, min_le_left _ _⟩
      have := (hget d.i1).1
      linarith
  · rw [if_neg hb] at ha
    rcases List.mem_or_eq_of_mem_set ha with h' | h'
    · exact h a h'
    · subst h'
      refine ⟨le_max_left _ _, max_le (by norm_num) ?_⟩
      have := (hget d.i2).2
      linarith

/-- Any number of cycles (with the underfull-pool guard) preserves the
adaptability invariant. -/
theorem adaptInv_runCycles (p : Bool) (sim : String → String → ℚ)
    (ds : List CycleDraws) :
    ∀ e : DebateEngine, AdaptInv e → AdaptInv (runCycles p sim ds e) := by
  induction ds with
  | nil => exact fun e h => h
  | cons d tl ih =>
    intro e h
    simp only [runCycles, List.foldl_cons] at *
    by_cases hg : e.agents.length < 2
    · rw [if_pos hg]
      exact ih e h
    · rw [if_neg hg]
      exact ih _ (adaptInv_body p sim d e h)

/-- C3: after any number of debate cycles from the initial pool, every
agent's adaptability lies in [0.1, 1]: it starts in [0.3, 0.9] (the
`random.uniform(0.3, 0.9)` contract) and every update clamps via
`min 1 (· + 0.1)` or `max 0.1 (· - 0.1)`. -/
theorem adaptability_bounds (uuid : Nat → String) (unif : Nat → ℚ)
    (hr : ∀ i, (0.3 : ℚ) ≤ unif i ∧ unif i ≤ 0.9)
    (p : Bool) (sim : String → String → ℚ) (ds : List CycleDraws) :
    ∀ a ∈ (runCycles p sim ds (DebateEngine.init uuid unif)).agents,
      (0.1 : ℚ) ≤ a.adaptability ∧ a.adaptability ≤ 1 := by
  refine adaptInv_runCycles p sim ds _ ?_
  intro a ha
  rw [init_agents_eq] at ha
  simp only [List.mem_cons, List.not_mem_nil, or_false] at ha
  rcases ha with h | h | h | h | h | h | h | h <;> subst h <;>
    exact ⟨le_trans (by norm_num) (hr _).1, le_trans (hr _).2 (by norm_num)⟩

/-- Witness for C3: bounds of agent 0's adaptability after one concrete
cycle from the fresh pool. -/
theorem adaptability_bounds_witness :
    (0.1 : ℚ) ≤ ((runCycles false sim075 [draws0]
        (DebateEngine.init testUuid testUnif)).agents.getD 0
        defaultAgent).adaptability ∧
    ((runCycles false sim075 [draws0]
        (DebateEngine.init testUuid testUnif)).agents.getD 0
        defaultAgent).adaptability ≤ 1 := by
  have hlen : 0 < (runCycles false sim075 [draws0]
      (DebateEngine.init testUuid testUnif)).agents.length := by
    norm_num [runCycles, runDebateCycleBody, draws0, sim075, testUnif,
      DebateEngine.init, roles, cycleArg1, cycleArg2, mkArg1, mkArg2, topics,
      stances1, stances2, addEdge, testUuid]
  exact adaptability_bounds testUuid testUnif
    (fun i => by constructor <;> norm_num [testUnif]) false sim075 [draws0]
    _ (getD_mem defaultAgent hlen)

/-! ### C4: knowledge-graph / debate-history bookkeeping -/

/-- Overwriting an edge's weight does not change which node pairs it
matches. -/
theorem edgeMatches_overwrite (a b : String) (ed : Edge) (w : ℚ) :
    edgeMatches a b (ed.1, ed.2.1, w) = edgeMatches a b ed := rfl

/-- `add_edge` grows the edge list by one exactly when the node pair is
new; re-insertion keeps the edge count. -/
theorem addEdge_length (g : List Edge) (a b : String) (w : ℚ) :
    (addEdge g a b w).length =
      if g.any (edgeMatches a b) then g.length else g.length + 1 := by
  unfold addEdge
  by_cases h : g.any (edgeMatches a b) <;>
    simp [h, List.length_map, List.length_append]

/-- A self-matching edge always matches its own node pair. -/
theorem edgeMatches_self (a b : String) (w : ℚ) :
    edgeMatches a b (a, b, w) = true := by
  simp [edgeMatches]

/-- Inserting the same node pair twice collapses to one insertion carrying
the second weight: `add_edge` overwrites rather than duplicating. -/
theorem addEdge_addEdge (g : List Edge) (a b : String) (w1 w2 : ℚ) :
    addEdge (addEdge g a b w1) a b w2 = addEdge g a b w2 := by
  by_cases h : g.any (edgeMatches a b)
  · rcases List.any_eq_true.mp h with ⟨ed, hmem, hed⟩
    have h1 : addEdge g a b w1 =
        g.map (fun ed => if edgeMatches a b ed then (ed.1, ed.2.1, w1)
          else ed) := by
      unfold addEdge; rw [if_pos h]
    have hany : (addEdge g a b w1).any (edgeMatches a b) = true := by
      rw [h1]
      refine List.any_eq_true.mpr ⟨_, List.mem_map_of_mem _ hmem, ?_⟩
      rw [if_pos hed, edgeMatches_overwrite]
      exact hed
    rw [h1] at hany ⊢
    unfold addEdge
    rw [if_pos hany, if_pos h, List.map_map]
    refine List.map_congr_left ?_
    intro x hx
    by_cases hxm : edgeMatches a b x
    · simp only [Function.comp_apply, if_pos hxm, edgeMatches_overwrite,
        if_pos hxm]
    · simp only [Function.comp_apply, if_neg hxm]
  · have h1 : addEdge g a b w1 = g ++ [(a, b, w1)] := by
      unfold addEdge; rw [if_neg h]
    have hnone : ∀ ed ∈ g, ¬ edgeMatches a b ed = true :=
      List.any_eq_false.mp (by simpa using h)
    have hany : (addEdge g a b w1).any (edgeMatches a b) = true := by
      rw [h1]
      exact List.any_eq_true.mpr ⟨(a, b, w1), by simp, edgeMatches_self a b w1⟩
    rw [h1] at hany ⊢
    unfold addEdge
    rw [if_pos hany, if_neg h, List.map_append]
    congr 1
    · refine (List.map_congr_left ?_).trans (List.map_id g)
      intro x hx
      rw [if_neg (hnone x hx)]
      rfl
    · simp [edgeMatches_self]

/-- One cycle appends exactly one history entry and calls `add_edge`
exactly once, so the edge count grows by one exactly when the node pair is
new. -/
theorem body_counts (p : Bool) (sim : String → String → ℚ)
    (d : CycleDraws) (e : DebateEngine) :
    (runDebateCycleBody p sim d e).debate_history.length =
      e.debate_history.length + 1 ∧
    (runDebateCycleBody p sim d e).knowledge_graph.length =
      (if e.knowledge_graph.any
          (edgeMatches (cycleArg1 p d e) (cycleArg2 p d e)) then
        e.knowledge_graph.length
      else e.knowledge_graph.length + 1) := by
  constructor
  · simp [runDebateCycleBody]
  · simp only [runDebateCycleBody]
    exact addEdge_length _ _ _ _

/-- Along any run (with the underfull-pool guard), the edge count never
exceeds the history length. -/
theorem graph_le_history_runCycles (p : Bool) (sim : String → String → ℚ)
    (ds : List CycleDraws) :
    ∀ e : DebateEngine,
      e.knowledge_graph.length ≤ e.debate_history.length →
      (runCycles p sim ds e).knowledge_graph.length ≤
        (runCycles p sim ds e).debate_history.length := by
  induction ds with
  | nil => exact fun e h => h
  | cons d tl ih =>
    intro e h
    simp only [runCycles, List.foldl_cons] at *
    by_cases hg : e.agents.length < 2
    · rw [if_pos hg]
      exact ih e h
    · rw [if_neg hg]
      refine ih _ ?_
      rw [(body_counts p sim d e).1]
      rw [(body_counts p sim d e).2]
      by_cases hm : e.knowledge_graph.any
          (edgeMatches (cycleArg1 p d e) (cycleArg2 p d e)) <;>
        simp [hm] <;> omega

/-- C4: every completed cycle appends exactly one history entry and makes
exactly one `add_edge` call, which creates a new edge exactly when the node
pair is new; along any run from the initial state the edge count stays ≤
the history length; and re-inserting an edge for an identical pair of
argument strings overwrites the stored weight with the new similarity
instead of duplicating the edge. -/
theorem graph_history_bookkeeping :
    (∀ (p : Bool) (sim : String → String → ℚ) (d : CycleDraws)
        (e : DebateEngine),
      (runDebateCycleBody p sim d e).debate_history.length =
        e.debate_history.length + 1 ∧
      (runDebateCycleBody p sim d e).knowledge_graph.length =
        (if e.knowledge_graph.any
            (edgeMatches (cycleArg1 p d e) (cycleArg2 p d e)) then
          e.knowledge_graph.length
        else e.knowledge_graph.length + 1)) ∧
    (∀ (uuid : Nat → String) (unif : Nat → ℚ) (p : Bool)
        (sim : String → String → ℚ) (ds : List CycleDraws),
      (runCycles p sim ds
          (DebateEngine.init uuid unif)).knowledge_graph.length ≤
        (runCycles p sim ds
          (DebateEngine.init uuid unif)).debate_history.length) ∧
    (∀ (a b : String) (w : ℚ), addEdge [] a b w = [(a, b, w)]) ∧
    (∀ (g : List Edge) (a b : String) (w1 w2 : ℚ),
      addEdge (addEdge g a b w1) a b w2 = addEdge g a b w2 ∧
      (addEdge (addEdge g a b w1) a b w2).length =
        (addEdge g a b w1).length) := by
  refine ⟨body_counts, ?_, ?_, ?_⟩
  · intro uuid unif p sim ds
    exact graph_le_history_runCycles p sim ds _ (Nat.le_refl 0)
  · intro a b w
    simp [addEdge]
  · intro g a b w1 w2
    refine ⟨addEdge_addEdge g a b w1 w2, ?_⟩
    rw [addEdge_addEdge g a b w1 w2, addEdge_length, addEdge_length]

/-! ### C7: the argument templates -/

/-- Counterexample to C7 as stated: in the `ai_engine.working.py` variant a
completed cycle records the argument
`"Rationalist argues: consciousness is fundamental."` — its trailing
period is a character beyond the enumerated parts and separators, so the
string is not the claimed concatenation for any role, topic and stance
word. -/
theorem argument_format_cex :
    ((DebateEngine.run_debate_cycle_working sim075 draws0
        (DebateEngine.init testUuid testUnif)).debate_history.getD 0
        ("", "")).1 =
      "Rationalist argues: consciousness is fundamental." ∧
    (roles.all fun r => topics.all fun t => stances1.all fun s =>
      "Rationalist argues: consciousness is fundamental." !=
        r ++ " argues: " ++ t ++ " is " ++ s) = true := by
  exact ⟨by decide, by decide⟩

/-- C7 as amended: in `ai_engine.py`, `argument1` is exactly agent1's role
++ `" argues: "` ++ the topic ++ `" is "` ++ a stance word from the first
stance set, and `argument2` is the symmetric `" counters: "` template over
the second stance set; in `ai_engine.working.py` each argument is that same
concatenation followed by one trailing period. The recorded history entry
of the cycle is exactly this pair. -/
theorem argument_format (p : Bool) (sim : String → String → ℚ)
    (d : CycleDraws) (e : DebateEngine)
    (ht : d.topic < topics.length) (hs1 : d.s1 < stances1.length)
    (hs2 : d.s2 < stances2.length) :
    topics.getD d.topic "" ∈ topics ∧
    stances1.getD d.s1 "" ∈ stances1 ∧
    stances2.getD d.s2 "" ∈ stances2 ∧
    cycleArg1 false d e =
      (e.agents.getD d.i1 defaultAgent).role ++ " argues: " ++
        topics.getD d.topic "" ++ " is " ++ stances1.getD d.s1 "" ∧
    cycleArg2 false d e =
      (e.agents.getD d.i2 defaultAgent).role ++ " counters: " ++
        topics.getD d.topic "" ++ " is " ++ stances2.getD d.s2 "" ∧
    cycleArg1 true d e = cycleArg1 false d e ++ "." ∧
    cycleArg2 true d e = cycleArg2 false d e ++ "." ∧
    (runDebateCycleBody p sim d e).debate_history =
      e.debate_history ++ [(cycleArg1 p d e, cycleArg2 p d e)] := by
  refine ⟨getD_mem _ ht, getD_mem _ hs1, getD_mem _ hs2, ?_, ?_, ?_, ?_, rfl⟩
  · simp [cycleArg1, mkArg1]
  · simp [cycleArg2, mkArg2]
  · simp [cycleArg1, mkArg1]
  · simp [cycleArg2, mkArg2]

/-- Witness for C7 (amended) at the fresh pool with draws (0, 1, 0, 0, 0). -/
theorem argument_format_witness :
    draws0.topic < topics.length ∧ draws0.s1 < stances1.length ∧
    draws0.s2 < stances2.length ∧
    cycleArg1 false draws0 (DebateEngine.init testUuid testUnif) =
      "Rationalist" ++ " argues: " ++ "consciousness" ++ " is " ++
        "fundamental" ∧
    cycleArg1 true draws0 (DebateEngine.init testUuid testUnif) =
      cycleArg1 false draws0 (DebateEngine.init testUuid testUnif) ++ "." := by
  have h := argument_format false sim075 draws0
    (DebateEngine.init testUuid testUnif) (by decide) (by decide) (by decide)
  exact ⟨by decide, by decide, by decide, h.2.2.2.1.trans (by decide),
    h.2.2.2.2.2.1⟩

/-! ### C10: noninterference of beliefs and adaptability -/

/-- C10: the synthesized arguments and the similarity score of a cycle
depend only on the sampled agents' role labels, the drawn indices and the
external similarity oracle — never on any agent's accumulated beliefs or
adaptability: two states with pointwise identical role sequences produce
identical `argument1`/`argument2` and identical similarity under the same
draws and the same oracle. -/
theorem argument_noninterference (p : Bool) (sim : String → String → ℚ)
    (d : CycleDraws) (e1 e2 : DebateEngine)
    (h : e1.agents.map ThoughtAgent.role = e2.agents.map ThoughtAgent.role) :
    cycleArg1 p d e1 = cycleArg1 p d e2 ∧
    cycleArg2 p d e1 = cycleArg2 p d e2 ∧
    sim (cycleArg1 p d e1) (cycleArg2 p d e1) =
      sim (cycleArg1 p d e2) (cycleArg2 p d e2) := by
  have k : ∀ i : Nat, (e1.agents.getD i defaultAgent).role =
      (e2.agents.getD i defaultAgent).role := by
    intro i
    have a1 := @List.getD_map ThoughtAgent String e1.agents defaultAgent i
      ThoughtAgent.role
    have a2 := @List.getD_map ThoughtAgent String e2.agents defaultAgent i
      ThoughtAgent.role
    rw [← a1, ← a2, h]
  have g1 : cycleArg1 p d e1 = cycleArg1 p d e2 := by
    unfold cycleArg1
    rw [k d.i1]
  have g2 : cycleArg2 p d e1 = cycleArg2 p d e2 := by
    unfold cycleArg2
    rw [k d.i2]
  exact ⟨g1, g2, by rw [g1, g2]⟩

/-- Witness for C10: the fresh pool and `alteredEngine` (same roles,
different ids, beliefs and adaptabilities) synthesize the same argument. -/
theorem argument_noninterference_witness :
    (DebateEngine.init testUuid testUnif).agents.map ThoughtAgent.role =
      alteredEngine.agents.map ThoughtAgent.role ∧
    cycleArg1 false draws0 (DebateEngine.init testUuid testUnif) =
      cycleArg1 false draws0 alteredEngine :=
  ⟨by decide,
    (argument_noninterference false sim075 draws0
      (DebateEngine.init testUuid testUnif) alteredEngine (by decide)).1⟩

/-! ### C9: the two argument strings of a cycle are always distinct -/

/-- `takeWhile` passes over a prefix whose elements all satisfy the
predicate. -/
theorem takeWhile_append_all {α : Type} (q : α → Bool) (l1 l2 : List α)
    (h : ∀ x ∈ l1, q x = true) :
    (l1 ++ l2).takeWhile q = l1 ++ l2.takeWhile q := by
  induction l1 with
  | nil => simp
  | cons a tl ih =>
    simp only [List.cons_append, List.takeWhile_cons_of_pos (h a (by simp))]
    rw [ih (fun x hx => h x (List.mem_cons_of_mem a hx))]

/-- Up to its first colon, `argument1` is the role followed by `" argues"`. -/
theorem beforeColon_mkArg1 (p : Bool) (r t s : String)
    (h : noColon r = true) :
    beforeColon (mkArg1 p r t s) =
      r.data ++ [' ', 'a', 'r', 'g', 'u', 'e', 's'] := by
  unfold beforeColon mkArg1
  simp only [String.data_append, List.append_assoc]
  rw [takeWhile_append_all _ _ _ (List.all_eq_true.mp h)]
  rfl

/-- Up to its first colon, `argument2` is the role followed by
`" counters"`. -/
theorem beforeColon_mkArg2 (p : Bool) (r t s : String)
    (h : noColon r = true) :
    beforeColon (mkArg2 p r t s) =
      r.data ++ [' ', 'c', 'o', 'u', 'n', 't', 'e', 'r', 's'] := by
  unfold beforeColon mkArg2
  simp only [String.data_append, List.append_assoc]
  rw [takeWhile_append_all _ _ _ (List.all_eq_true.mp h)]
  rfl

/-- For colon-free roles the `" argues: "` and `" counters: "` templates can
never collide, whatever the roles, topics and stances. -/
theorem mkArg1_ne_mkArg2 (p q : Bool) (r1 r2 t1 t2 s1 s2 : String)
    (h1 : noColon r1 = true) (h2 : noColon r2 = true) :
    mkArg1 p r1 t1 s1 ≠ mkArg2 q r2 t2 s2 := by
  intro heq
  have hbc := congrArg beforeColon heq
  rw [beforeColon_mkArg1 p r1 t1 s1 h1,
    beforeColon_mkArg2 q r2 t2 s2 h2] at hbc
  have hrev := congrArg List.reverse hbc
  simp only [List.reverse_append] at hrev
  have hg := congrArg (fun l => l[1]?) hrev
  simp only [List.getElem?_append] at hg
  norm_num at hg
  exact (by decide : ('e' : Char) ≠ 'r') hg

/-- Reading any index of a colon-free pool yields a colon-free role (the
out-of-range placeholder's role is the empty string). -/
theorem rolesNoColon_getD (e : DebateEngine) (h : RolesNoColon e)
    (i : Nat) : noColon (e.agents.getD i defaultAgent).role = true := by
  by_cases hi : i < e.agents.length
  · exact h _ (getD_mem defaultAgent hi)
  · rw [List.getD_eq_default _ _ (Nat.le_of_not_lt hi)]
    decide

/-- In any state with colon-free roles the two synthesized arguments of a
cycle differ. -/
theorem cycleArgs_ne (p : Bool) (d : CycleDraws) (e : DebateEngine)
    (h : RolesNoColon e) : cycleArg1 p d e ≠ cycleArg2 p d e :=
  mkArg1_ne_mkArg2 p p _ _ _ _ _ _
    (rolesNoColon_getD e h d.i1) (rolesNoColon_getD e h d.i2)

/-- A cycle never rewrites a role, so colon-freeness of the pool is
preserved. -/
theorem rolesNoColon_body (p : Bool) (sim : String → String → ℚ)
    (d : CycleDraws) (e : DebateEngine) (h : RolesNoColon e) :
    RolesNoColon (runDebateCycleBody p sim d e) := by
  intro a ha
  simp only [runDebateCycleBody] at ha
  by_cases hb : sim (cycleArg1 p d e) (cycleArg2 p d e) > 0.7
  · rw [if_pos hb] at ha
    rcases List.mem_or_eq_of_mem_set ha with h' | h'
    · exact h a h'
    · subst h'
      exact rolesNoColon_getD e h d.i1
  · rw [if_neg hb] at ha
    rcases List.mem_or_eq_of_mem_set ha with h' | h'
    · exact h a h'
    · subst h'
      exact rolesNoColon_getD e h d.i2

/-- One cycle preserves pairwise-distinct history pairs and loop-free
edges: the appended pair and the inserted (or overwritten) edge join the
two distinct synthesized arguments. -/
theorem distinctState_body (p : Bool) (sim : String → String → ℚ)
    (d : CycleDraws) (e : DebateEngine) (hr : RolesNoColon e)
    (h : DistinctState e) : DistinctState (runDebateCycleBody p sim d e) := by
  have hne := cycleArgs_ne p d e hr
  constructor
  · intro pr hpr
    simp only [runDebateCycleBody] at hpr
    rcases List.mem_append.mp hpr with h' | h'
    · exact h.1 pr h'
    · rcases List.mem_singleton.mp h' with rfl
      exact hne
  · intro ed hed
    simp only [runDebateCycleBody] at hed
    unfold addEdge at hed
    by_cases hany : e.knowledge_graph.any
        (edgeMatches (cycleArg1 p d e) (cycleArg2 p d e))
    · rw [if_pos hany] at hed
      rcases List.mem_map.mp hed with ⟨x, hx, rfl⟩
      by_cases hxm : edgeMatches (cycleArg1 p d e) (cycleArg2 p d e) x
      · simpa [hxm] using h.2 x hx
      · simpa [hxm] using h.2 x hx
    · rw [if_neg hany] at hed
      rcases List.mem_append.mp hed with h' | h'
      · exact h.2 ed h'
      · rcases List.mem_singleton.mp h' with rfl
        exact hne

/-- Both invariants persist along any run. -/
theorem distinctState_runCycles (p : Bool) (sim : String → String → ℚ)
    (ds : List CycleDraws) :
    ∀ e : DebateEngine, RolesNoColon e → DistinctState e →
      RolesNoColon (runCycles p sim ds e) ∧
        DistinctState (runCycles p sim ds e) := by
  induction ds with
  | nil => exact fun e hr h => ⟨hr, h⟩
  | cons d tl ih =>
    intro e hr h
    simp only [runCycles, List.foldl_cons] at *
    by_cases hg : e.agents.length < 2
    · rw [if_pos hg]
      exact ih e hr h
    · rw [if_neg hg]
      exact ih _ (rolesNoColon_body p sim d e hr)
        (distinctState_body p sim d e hr h)

/-- C9: along any run from the initial pool, the two synthesized argument
strings of every completed cycle are distinct (`argument1` carries
`" argues: "`, `argument2` carries `" counters: "`), so every recorded
history entry is a pair of two distinct strings and the knowledge graph
never contains a self-loop edge. -/
theorem no_self_loops (uuid : Nat → String) (unif : Nat → ℚ) (p : Bool)
    (sim : String → String → ℚ) (ds : List CycleDraws) :
    (∀ pr ∈ (runCycles p sim ds
        (DebateEngine.init uuid unif)).debate_history, pr.1 ≠ pr.2) ∧
    (∀ ed ∈ (runCycles p sim ds
        (DebateEngine.init uuid unif)).knowledge_graph, ed.1 ≠ ed.2.1) := by
  have hroles : RolesNoColon (DebateEngine.init uuid unif) := by
    intro a ha
    have hm := init_role_mem uuid unif ha
    have hall : ∀ r ∈ roles, noColon r = true := by decide
    exact hall _ hm
  have hd : DistinctState (DebateEngine.init uuid unif) :=
    ⟨fun pr hpr => absurd hpr (List.not_mem_nil pr),
     fun ed hed => absurd hed (List.not_mem_nil ed)⟩
  exact (distinctState_runCycles p sim ds _ hroles hd).2

/-! ### C8: serialization round-trip of the history file -/

/-- `splitOnElem` always yields at least one run. -/
theorem splitOnElem_ne_nil {α : Type} [DecidableEq α] (c : α)
    (l : List α) : splitOnElem c l ≠ [] := by
  cases l with
  | nil => simp [splitOnElem]
  | cons x xs =>
    simp only [splitOnElem]
    cases h : splitOnElem c xs with
    | nil => simp
    | cons g gs =>
      by_cases hx : x = c <;> simp [hx]

/-- Splitting peels off a separator-free prefix up to the first separator. -/
theorem splitOnElem_append {α : Type} [DecidableEq α] (c : α)
    (l1 l2 : List α) (h : c ∉ l1) :
    splitOnElem c (l1 ++ c :: l2) = l1 :: splitOnElem c l2 := by
  induction l1 with
  | nil =>
    simp only [List.nil_append, splitOnElem]
    cases hg : splitOnElem c l2 with
    | nil => exact absurd hg (splitOnElem_ne_nil c l2)
    | cons g gs => simp
  | cons x xs ih =>
    have hx : ¬ x = c := fun hxc => h (hxc ▸ List.mem_cons_self x xs)
    have hxs : c ∉ xs := fun hc => h (List.mem_cons_of_mem x hc)
    simp only [List.cons_append, splitOnElem, List.append_eq]
    rw [ih hxs]
    simp [hx]

/-- A leading separator contributes one empty run. -/
theorem splitOnElem_cons_self {α : Type} [DecidableEq α] (c : α)
    (l : List α) : splitOnElem c (c :: l) = [] :: splitOnElem c l := by
  have h := splitOnElem_append c [] l (by simp)
  simpa using h

/-- The character stream written for one history entry: first line, newline,
second line, newline, blank line, then the rest of the dump. -/
theorem serializeHistory_data (a b : String) (t : List (String × String)) :
    (serializeHistory ((a, b) :: t)).data =
      a.data ++ '\n' ::
        (b.data ++ '\n' :: '\n' :: (serializeHistory t).data) := by
  show (a ++ "\n" ++ b ++ "\n\n" ++ serializeHistory t).data = _
  have h1 : ("\n" : String).data = ['\n'] := rfl
  have h2 : ("\n\n" : String).data = ['\n', '\n'] := rfl
  simp [String.data_append, h1, h2, List.append_assoc]

/-- A `noNewline` string's characters exclude `'\n'`. -/
theorem not_mem_newline {s : String} (h : noNewline s = true) :
    '\n' ∉ s.data := by
  intro hmem
  have := List.all_eq_true.mp h _ hmem
  simp at this

/-- Parsing inverts serialization on any well-formed history. -/
theorem parse_serialize (h : List (String × String)) (hw : WfHistory h) :
    parseHistory (serializeHistory h) = some h := by
  induction h with
  | nil => decide
  | cons pr t ih =>
    obtain ⟨a, b⟩ := pr
    obtain ⟨ha, hb, han, hbn⟩ := hw (a, b) (List.mem_cons_self _ _)
    have ihr := ih (fun q hq => hw q (List.mem_cons_of_mem _ hq))
    unfold parseHistory at ihr ⊢
    rw [serializeHistory_data,
      splitOnElem_append '\n' a.data _ (not_mem_newline han),
      splitOnElem_append '\n' b.data _ (not_mem_newline hbn),
      splitOnElem_cons_self]
    rw [show (a.data :: b.data :: [] ::
        splitOnElem '\n' (serializeHistory t).data) =
      ([a.data, b.data] ++ [] ::
        splitOnElem '\n' (serializeHistory t).data) from rfl]
    rw [splitOnElem_append ([] : List Char) [a.data, b.data] _
      (by simp [ha, hb, eq_comm])]
    rw [List.filter_cons]
    rw [if_pos (show decide (([a.data, b.data] : List (List Char)) ≠ []) =
      true from rfl)]
    rw [List.mapM_cons]
    rw [ihr]
    rfl

/-- Reading any index of a list of newline-free strings (with blank
default) yields a newline-free string. -/
theorem noNewline_getD_list (l : List String)
    (hl : ∀ r ∈ l, noNewline r = true) (i : Nat) :
    noNewline (l.getD i "") = true := by
  by_cases hi : i < l.length
  · exact hl _ (getD_mem _ hi)
  · rw [List.getD_eq_default _ _ (Nat.le_of_not_lt hi)]
    decide

/-- Reading any index of a newline-free pool yields a newline-free role. -/
theorem rolesNoNewline_getD (e : DebateEngine) (h : RolesNoNewline e)
    (i : Nat) : noNewline (e.agents.getD i defaultAgent).role = true := by
  by_cases hi : i < e.agents.length
  · exact h _ (getD_mem defaultAgent hi)
  · rw [List.getD_eq_default _ _ (Nat.le_of_not_lt hi)]
    decide

/-- The `argument1` template always yields a non-blank, newline-free
string when its parts are newline-free. -/
theorem wf_mkArg1 (p : Bool) (r t s : String) (hr : noNewline r = true)
    (ht : noNewline t = true) (hs : noNewline s = true) :
    (mkArg1 p r t s).data ≠ [] ∧ noNewline (mkArg1 p r t s) = true := by
  unfold noNewline mkArg1 at *
  cases p <;>
    simp [String.data_append, List.all_append, hr, ht, hs,
      List.append_eq_nil]

/-- The `argument2` template always yields a non-blank, newline-free
string when its parts are newline-free. -/
theorem wf_mkArg2 (p : Bool) (r t s : String) (hr : noNewline r = true)
    (ht : noNewline t = true) (hs : noNewline s = true) :
    (mkArg2 p r t s).data ≠ [] ∧ noNewline (mkArg2 p r t s) = true := by
  unfold noNewline mkArg2 at *
  cases p <;>
    simp [String.data_append, List.all_append, hr, ht, hs,
      List.append_eq_nil]

/-- A cycle never rewrites a role, so newline-freeness of the pool is
preserved. -/
theorem rolesNoNewline_body (p : Bool) (sim : String → String → ℚ)
    (d : CycleDraws) (e : DebateEngine) (h : RolesNoNewline e) :
    RolesNoNewline (runDebateCycleBody p sim d e) := by
  intro a ha
  simp only [runDebateCycleBody] at ha
  by_cases hb : sim (cycleArg1 p d e) (cycleArg2 p d e) > 0.7
  · rw [if_pos hb] at ha
    rcases List.mem_or_eq_of_mem_set ha with h' | h'
    · exact h a h'
    · subst h'
      exact rolesNoNewline_getD e h d.i1
  · rw [if_neg hb] at ha
    rcases List.mem_or_eq_of_mem_set ha with h' | h'
    · exact h a h'
    · subst h'
      exact rolesNoNewline_getD e h d.i2

/-- One cycle appends a well-formed pair: both synthesized arguments are
non-blank and newline-free. -/
theorem wfHistory_body (p : Bool) (sim : String → String → ℚ)
    (d : CycleDraws) (e : DebateEngine) (hr : RolesNoNewline e)
    (hw : WfHistory e.debate_history) :
    WfHistory (runDebateCycleBody p sim d e).debate_history := by
  intro pr hpr
  simp only [runDebateCycleBody] at hpr
  rcases List.mem_append.mp hpr with h' | h'
  · exact hw pr h'
  · rcases List.mem_singleton.mp h' with rfl
    obtain ⟨h1a, h1b⟩ := wf_mkArg1 p _ _ _ (rolesNoNewline_getD e hr d.i1)
      (noNewline_getD_list topics (by decide) d.topic)
      (noNewline_getD_list stances1 (by decide) d.s1)
    obtain ⟨h2a, h2b⟩ := wf_mkArg2 p _ _ _ (rolesNoNewline_getD e hr d.i2)
      (noNewline_getD_list topics (by decide) d.topic)
      (noNewline_getD_list stances2 (by decide) d.s2)
    exact ⟨h1a, h2a, h1b, h2b⟩

/-- Both facts persist along any run. -/
theorem wfHistory_runCycles (p : Bool) (sim : String → String → ℚ)
    (ds : List CycleDraws) :
    ∀ e : DebateEngine, RolesNoNewline e → WfHistory e.debate_history →
      RolesNoNewline (runCycles p sim ds e) ∧
        WfHistory (runCycles p sim ds e).debate_history := by
  induction ds with
  | nil => exact fun e hr h => ⟨hr, h⟩
  | cons d tl ih =>
    intro e hr h
    simp only [runCycles, List.foldl_cons] at *
    by_cases hg : e.agents.length < 2
    · rw [if_pos hg]
      exact ih e hr h
    · rw [if_neg hg]
      exact ih _ (rolesNoNewline_body p sim d e hr)
        (wfHistory_body p sim d e hr h)

/-- C8: writing a debate history to the file (argument1, argument2, blank
line per pair, in order) and parsing the text back (two non-blank lines
per blank-line-separated block) reconstructs exactly the original
sequence, for every well-formed (non-blank, newline-free) history — and
every history the engine produces along any run is of that shape, so the
round trip holds for it. -/
theorem history_file_roundtrip :
    (∀ h : List (String × String), WfHistory h →
      parseHistory (serializeHistory h) = some h) ∧
    (∀ (uuid : Nat → String) (unif : Nat → ℚ) (p : Bool)
        (sim : String → String → ℚ) (ds : List CycleDraws),
      parseHistory (serializeHistory
        (runCycles p sim ds
          (DebateEngine.init uuid unif)).debate_history) =
        some (runCycles p sim ds
          (DebateEngine.init uuid unif)).debate_history) := by
  refine ⟨parse_serialize, ?_⟩
  intro uuid unif p sim ds
  have hroles : RolesNoNewline (DebateEngine.init uuid unif) := by
    intro a ha
    have hm := init_role_mem uuid unif ha
    have hall : ∀ r ∈ roles, noNewline r = true := by decide
    exact hall _ hm
  have hw : WfHistory (DebateEngine.init uuid unif).debate_history :=
    fun pr hpr => absurd hpr (List.not_mem_nil pr)
  exact parse_serialize _ (wfHistory_runCycles p sim ds _ hroles hw).2

/-- Witness for C8: the round trip evaluated on a concrete two-entry
history. -/
theorem history_file_roundtrip_witness :
    WfHistory [("a", "b"), ("cd", "e")] ∧
    parseHistory (serializeHistory [("a", "b"), ("cd", "e")]) =
      some [("a", "b"), ("cd", "e")] :=
  ⟨by unfold WfHistory; decide,
    history_file_roundtrip.1 [("a", "b"), ("cd", "e")]
      (by unfold WfHistory; decide)⟩

end AIEngine
